import Mathlib

/-!
Shallow embedding of the two core systems of this repository:

* `Buoyancy` — src/systems/buoyancy/Buoyancy.cc
* `VelocityControl` — src/systems/velocity_control/VelocityControl.cc

C++ `double` values are modelled by `FP`: an exact rational together with a
single absorbing `nan` element standing for any non-finite IEEE value
(NaN or ±Inf).  Every arithmetic operation with a non-finite operand yields a
non-finite result for the operations used by this code (+, -, *, and division
by a finite divisor), so the abstraction is sound there; the only unfaithful
case (finite / infinite = 0) never arises because every divisor in the
embedded code is a finite sum of shape volumes.  Division by zero yields a
non-finite value (NaN when the numerator is also zero), modelled as `nan`.

`std::map` is modelled by an association list together with
* `mapFind`   — `find` (first matching key),
* `mapSet`    — `operator[]` followed by assignment / overwrite-or-create,
* `mapInsert` — `insert`, which does NOT overwrite an existing key,
* `mapGetOrInsert` — read via `operator[]`, which default-inserts a missing
  key.
Iteration order of the association list is insertion order rather than
`std::map`'s key order; none of the embedded loops is order-sensitive in a
way the claims depend on.
-/

/-- A C++ `double`: an exact rational, or `nan` for any non-finite value. -/
inductive FP where
  | num : ℚ → FP
  | nan : FP
deriving DecidableEq, Repr

namespace FP

def add : FP → FP → FP
  | num a, num b => num (a + b)
  | _, _ => nan

def sub : FP → FP → FP
  | num a, num b => num (a - b)
  | _, _ => nan

def mul : FP → FP → FP
  | num a, num b => num (a * b)
  | _, _ => nan

def neg : FP → FP
  | num a => num (-a)
  | nan => nan

/-- IEEE division: a zero divisor produces a non-finite value (0/0 = NaN,
x/0 = ±Inf), both collapsed to `nan`. -/
def div : FP → FP → FP
  | num a, num b => if b = 0 then nan else num (a / b)
  | _, _ => nan

def zero : FP := num 0

end FP

/-- `ignition::math::Vector3d`. -/
structure V3 where
  x : FP
  y : FP
  z : FP
deriving DecidableEq, Repr

namespace V3

def zero : V3 := ⟨FP.zero, FP.zero, FP.zero⟩

def add (a b : V3) : V3 := ⟨a.x.add b.x, a.y.add b.y, a.z.add b.z⟩

def sub (a b : V3) : V3 := ⟨a.x.sub b.x, a.y.sub b.y, a.z.sub b.z⟩

/-- scalar * vector. -/
def smul (s : FP) (v : V3) : V3 := ⟨s.mul v.x, s.mul v.y, s.mul v.z⟩

/-- componentwise vector / scalar, as `Vector3d::operator/(double)`. -/
def divScalar (v : V3) (s : FP) : V3 := ⟨v.x.div s, v.y.div s, v.z.div s⟩

/-- `Vector3d::Cross`. -/
def cross (a b : V3) : V3 :=
  ⟨(a.y.mul b.z).sub (a.z.mul b.y),
   (a.z.mul b.x).sub (a.x.mul b.z),
   (a.x.mul b.y).sub (a.y.mul b.x)⟩

end V3

/-- `ignition::math::Quaterniond` (w, x, y, z). -/
structure Quat where
  w : FP
  x : FP
  y : FP
  z : FP
deriving DecidableEq, Repr

namespace Quat

def ident : Quat := ⟨FP.num 1, FP.zero, FP.zero, FP.zero⟩

/-- Hamilton product, as `Quaterniond::operator*`. -/
def mul (q r : Quat) : Quat :=
  ⟨(((q.w.mul r.w).sub (q.x.mul r.x)).sub (q.y.mul r.y)).sub (q.z.mul r.z),
   (((q.w.mul r.x).add (q.x.mul r.w)).add (q.y.mul r.z)).sub (q.z.mul r.y),
   (((q.w.mul r.y).sub (q.x.mul r.z)).add (q.y.mul r.w)).add (q.z.mul r.x),
   (((q.w.mul r.z).add (q.x.mul r.y)).sub (q.y.mul r.x)).add (q.z.mul r.w)⟩

/-- `Quaterniond::Inverse`: conjugate scaled by the reciprocal of the squared
norm; the zero quaternion inverts to the identity. -/
def inverse (q : Quat) : Quat :=
  let s : FP := (((q.w.mul q.w).add (q.x.mul q.x)).add (q.y.mul q.y)).add (q.z.mul q.z)
  if s = FP.zero then ident
  else ⟨q.w.div s, (q.x.neg).div s, (q.y.neg).div s, (q.z.neg).div s⟩

/-- `Quaterniond::RotateVector`: q * (0, v) * q⁻¹, imaginary part. -/
def rotateVector (q : Quat) (v : V3) : V3 :=
  let qv : Quat := ⟨FP.zero, v.x, v.y, v.z⟩
  let r : Quat := (q.mul qv).mul q.inverse
  ⟨r.x, r.y, r.z⟩

end Quat

/-- `ignition::math::Pose3d`: position and rotation. -/
structure Pose where
  pos : V3
  rot : Quat
deriving DecidableEq, Repr

def Pose.ident : Pose := ⟨V3.zero, Quat.ident⟩

/-! ### Association-list model of `std::map` -/

def mapFind {α β : Type} [DecidableEq α] : List (α × β) → α → Option β
  | [], _ => none
  | (k, v) :: rest, key => if k = key then some v else mapFind rest key

/-- `m[k] = v`: overwrite if present, append if absent. -/
def mapSet {α β : Type} [DecidableEq α] : List (α × β) → α → β → List (α × β)
  | [], key, val => [(key, val)]
  | (k, v) :: rest, key, val =>
      if k = key then (k, val) :: rest else (k, v) :: mapSet rest key val

/-- `std::map::insert`: a no-op when the key is already present. -/
def mapInsert {α β : Type} [DecidableEq α] (m : List (α × β)) (key : α) (val : β) :
    List (α × β) :=
  match mapFind m key with
  | some _ => m
  | none => m ++ [(key, val)]

/-- read through `operator[]`: default-inserts a missing key. -/
def mapGetOrInsert {α β : Type} [DecidableEq α] [Inhabited β]
    (m : List (α × β)) (key : α) : β × List (α × β) :=
  match mapFind m key with
  | some v => (v, m)
  | none => (default, m ++ [(key, default)])

/-! ### Buoyancy (src/systems/buoyancy/Buoyancy.cc) -/

namespace Buoyancy

/-- An entity id (`ignition::gazebo::Entity`); `kNullEntity = 0`. -/
abbrev Entity := Nat

/-- The collision geometry kinds dispatched on in `Buoyancy::Configure`
(`sdf::GeometryType`). -/
inductive Geom where
  | box : FP → FP → FP → Geom
  | sphere : FP → Geom
  | cylinder : FP → FP → Geom
  | plane : Geom
  | mesh : String → Geom
  | unsupported : Geom
deriving DecidableEq, Repr

/-- `M_PI` rounded to the nearest IEEE double, the value the source's math
library uses in the closed-form volumes. -/
def dblPi : ℚ := 884279719003555 / 281474976710656

/-- The per-shape volume computed by the `switch` in `Buoyancy::Configure`:
closed-form for box/sphere/cylinder, external mesh lookup (failure ⇒ 0,
logged) for mesh, 0 for plane (warned) and unrecognized kinds (logged). -/
def shapeVolume (meshVolume : String → Option FP) : Geom → FP
  | Geom.box x y z => (x.mul y).mul z
  | Geom.sphere r => (FP.num (4 * dblPi / 3)).mul ((r.mul r).mul r)
  | Geom.cylinder r l => ((FP.num dblPi).mul (r.mul r)).mul l
  | Geom.plane => FP.zero
  | Geom.mesh file => (meshVolume file).getD FP.zero
  | Geom.unsupported => FP.zero

/-- A collision child entity: its `CollisionElement` component (`none`
models a missing component, which the loop skips) and its world position,
the only part of `worldPose(collision)` the code reads. -/
structure Collision where
  geom : Option Geom
  worldPos : V3
deriving DecidableEq, Repr

/-- `BuoyancyPrivate::VolumeProperties`: center of volume (link frame) and
total volume of a link.  The default constructor zero-initializes. -/
structure VolumeProperties where
  cov : V3 := V3.zero
  volume : FP := FP.zero
deriving DecidableEq, Repr

instance : Inhabited VolumeProperties := ⟨{}⟩

/-- `msgs::Wrench` as written to `ExternalWorldWrenchCmd`. -/
structure Wrench where
  force : V3
  torque : V3
deriving DecidableEq, Repr

/-- The slice of the entity-component store the buoyancy system touches.
`links` is `ChildrenByComponents(model, Link())`; the association lists give
each link's collision children, current world pose, `Inertial` component
(absent ⇒ the source dereferences null), and `ExternalWorldWrenchCmd`
component.  `hasWorld`/`worldGravity` model `EntityByComponents(World())`
and the world's `Gravity` component. -/
structure Ecm where
  links : List Entity
  collisionsOf : List (Entity × List Collision)
  worldPoseOf : List (Entity × Pose)
  inertialPosOf : List (Entity × V3)
  wrenchCmd : List (Entity × Wrench)
  hasWorld : Bool
  worldGravity : Option V3
deriving DecidableEq, Repr

/-- `BuoyancyPrivate`: the system's own state.  `gravity` is a pointer,
null until `Configure` resolves it. -/
structure State where
  fluidDensity : FP := FP.num 1000
  gravity : Option V3 := none
  volPropsMap : List (Entity × VolumeProperties) := []
deriving DecidableEq, Repr

/-- The per-link volume accumulation of `Buoyancy::Configure` (lines
109-176): sums shape volumes and volume-weighted world positions over the
link's collisions, then stores
`cov = weightedPosSum / volumeSum - linkWorldPos` — the division is NOT
guarded against `volumeSum = 0` — and `volume = volumeSum`. -/
def configureLink (meshVolume : String → Option FP) (ecm : Ecm)
    (m : List (Entity × VolumeProperties)) (link : Entity) :
    List (Entity × VolumeProperties) :=
  let colls := (mapFind ecm.collisionsOf link).getD []
  let acc := colls.foldl
    (fun (a : FP × V3) c =>
      match c.geom with
      | none => a
      | some g =>
          let volume := shapeVolume meshVolume g
          (a.1.add volume, a.2.add (V3.smul volume c.worldPos)))
    (FP.zero, V3.zero)
  let pose := (mapFind ecm.worldPoseOf link).getD Pose.ident
  mapSet m link
    { cov := (V3.divScalar acc.2 acc.1).sub pose.pos, volume := acc.1 }

/-- `Buoyancy::Configure`: bail out (state untouched, gravity null) when the
entity is not a valid model; read the optional `fluid_density`; compute the
volume-properties map for every link; then resolve the world entity and its
gravity component, leaving `gravity` null when either is missing. -/
def configure (modelValid : Bool) (sdfFluidDensity : Option FP)
    (meshVolume : String → Option FP) (ecm : Ecm) : State :=
  if !modelValid then {}
  else
    let density := sdfFluidDensity.getD (FP.num 1000)
    let vmap := ecm.links.foldl (configureLink meshVolume ecm) []
    if !ecm.hasWorld then
      { fluidDensity := density, gravity := none, volPropsMap := vmap }
    else
      { fluidDensity := density, gravity := ecm.worldGravity,
        volPropsMap := vmap }

/-- The body of the per-link loop in `Buoyancy::PreUpdate` (lines 209-254):
read (default-inserting) the cached volume properties, compute
`buoyancy = -fluidDensity * volume * gravity`, rotate
`cov - inertialPos` into the world frame with the link's current world
rotation, take the cross product for the torque, and overwrite-or-create
the link's wrench component.  A missing `Inertial` component is a null
dereference in the source, modelled as `none` (crash). -/
def preUpdateLink (fluidDensity : FP) (g : V3)
    (acc : List (Entity × VolumeProperties) × Ecm) (link : Entity) :
    Option (List (Entity × VolumeProperties) × Ecm) :=
  let (vp, vmap) := mapGetOrInsert acc.1 link
  let buoyancy := V3.smul ((fluidDensity.neg).mul vp.volume) g
  let linkWorldPose := (mapFind acc.2.worldPoseOf link).getD Pose.ident
  match mapFind acc.2.inertialPosOf link with
  | none => none
  | some inertialPos =>
      let offset := vp.cov.sub inertialPos
      let offsetWorld := linkWorldPose.rot.rotateVector offset
      let torque := offsetWorld.cross buoyancy
      let wrench : Wrench := ⟨buoyancy, torque⟩
      some (vmap, { acc.2 with wrenchCmd := mapSet acc.2.wrenchCmd link wrench })

def preUpdateLinks (fluidDensity : FP) (g : V3) :
    List Entity → List (Entity × VolumeProperties) × Ecm →
    Option (List (Entity × VolumeProperties) × Ecm)
  | [], acc => some acc
  | link :: rest, acc =>
      match preUpdateLink fluidDensity g acc link with
      | none => none
      | some acc2 => preUpdateLinks fluidDensity g rest acc2

/-- `Buoyancy::PreUpdate`: a no-op when `gravity` was never resolved;
otherwise runs the per-link wrench loop over the model's links.  `none`
models the crash on a link with no `Inertial` component. -/
def preUpdate (s : State) (ecm : Ecm) : Option (State × Ecm) :=
  match s.gravity with
  | none => some (s, ecm)
  | some g =>
      match preUpdateLinks s.fluidDensity g ecm.links (s.volPropsMap, ecm) with
      | none => none
      | some (vmap, ecm2) => some ({ s with volPropsMap := vmap }, ecm2)

end Buoyancy

/-! ### VelocityControl (src/systems/velocity_control/VelocityControl.cc) -/

namespace VelocityControl

abbrev Entity := Nat

/-- `ignition::msgs::Twist`: a linear and an angular 3-vector. -/
structure Twist where
  linear : V3 := V3.zero
  angular : V3 := V3.zero
deriving DecidableEq, Repr

/-- `ignition::gazebo::UpdateInfo`: the step duration (as a signed tick
count) and the paused flag. -/
structure UpdateInfo where
  dt : Int
  paused : Bool
deriving DecidableEq, Repr

/-- `VelocityControlPrivate`: the system's own state.  `model` is the model
entity; `targetVel` is the mutex-guarded model-level command buffer;
`linearVelocity`/`angularVelocity` are the cached model targets;
`linkNames` the configured `<link_name>` entries; `links` the
name-to-entity resolution map; `angularVelocities`/`linearVelocities` the
per-link cached targets; `linkVels` the per-link raw-command buffer. -/
structure State where
  model : Entity
  targetVel : Twist := {}
  linearVelocity : V3 := V3.zero
  angularVelocity : V3 := V3.zero
  linkNames : List String := []
  links : List (String × Entity) := []
  angularVelocities : List (String × V3) := []
  linearVelocities : List (String × V3) := []
  linkVels : List (String × Twist) := []
deriving DecidableEq, Repr

/-- The slice of the entity-component store this system writes:
`AngularVelocityCmd` and `LinearVelocityCmd` per entity. -/
structure Ecm where
  angularVelCmd : List (Entity × V3) := []
  linearVelCmd : List (Entity × V3) := []
deriving DecidableEq, Repr

/-- `pat` occurs at the head of `s`. -/
def headMatch : List Char → List Char → Bool
  | _, [] => true
  | [], _ :: _ => false
  | a :: as, b :: bs => a == b && headMatch as bs

/-- `std::string::find(pat) != npos`: `pat` occurs somewhere in `s`. -/
def hasSubstr : List Char → List Char → Bool
  | [], pat => pat.isEmpty
  | s@(_ :: rest), pat => headMatch s pat || hasSubstr rest pat

/-- The per-link command topic built in `Configure` (line 144):
`"/model/" + modelName + "/link/" + linkName + "/cmd_vel"`. -/
def linkTopic (modelName linkName : String) : String :=
  "/model/" ++ modelName ++ "/link/" ++ linkName ++ "/cmd_vel"

/-- `VelocityControlPrivate::OnCmdVel`: overwrite the model-level buffer
with the incoming message (under the mutex). -/
def onCmdVel (s : State) (msg : Twist) : State :=
  { s with targetVel := msg }

/-- One iteration of the loop in `VelocityControlPrivate::OnLinkCmdVel`:
when the configured link name occurs as a substring of the message's
topic, `insert` the message into `linkVels` under that name —
`std::map::insert`, so an existing entry is NOT overwritten. -/
def linkCmdStore (msg : Twist) (topic : String)
    (m : List (String × Twist)) (linkName : String) : List (String × Twist) :=
  if hasSubstr topic.toList linkName.toList then mapInsert m linkName msg
  else m

/-- `VelocityControlPrivate::OnLinkCmdVel`: runs `linkCmdStore` over every
configured link name. -/
def onLinkCmdVel (s : State) (msg : Twist) (topic : String) : State :=
  { s with linkVels := s.linkNames.foldl (linkCmdStore msg topic) s.linkVels }

/-- `VelocityControlPrivate::UpdateVelocity`: copy the buffered model-level
command into the cached model target vectors (x of linear and z of angular
are read under the mutex, the remaining components outside it; the value
copied is the full vector either way). -/
def updateVelocity (s : State) : State :=
  let linVel := s.targetVel.linear.x
  let angVel := s.targetVel.angular.z
  { s with
      linearVelocity := ⟨linVel, s.targetVel.linear.y, s.targetVel.linear.z⟩,
      angularVelocity := ⟨s.targetVel.angular.x, s.targetVel.angular.y, angVel⟩ }

/-- One iteration of the loop in
`VelocityControlPrivate::UpdateLinkVelocity`: `insert` the buffered link
command's linear/angular vectors into the per-link target maps — again
`std::map::insert`, no overwrite of existing entries. -/
def linkVelStore (st : State) (p : String × Twist) : State :=
  { st with
      linearVelocities := mapInsert st.linearVelocities p.1 p.2.linear,
      angularVelocities := mapInsert st.angularVelocities p.1 p.2.angular }

/-- `VelocityControlPrivate::UpdateLinkVelocity`: runs `linkVelStore` over
every buffered link command. -/
def updateLinkVelocity (s : State) : State :=
  s.linkVels.foldl linkVelStore s

/-- `VelocityControl::PostUpdate`: nothing when paused; otherwise refresh
the model-level then the per-link cached targets from the buffers. -/
def postUpdate (info : UpdateInfo) (s : State) : State :=
  if info.paused then s
  else updateLinkVelocity (updateVelocity s)

/-- Result of one `PreUpdate` call: the system state, the store, and the
list of link names passed to `Model::LinkByName` this tick (in order). -/
structure PreOut where
  st : State
  ecm : Ecm
  lookups : List String
deriving Repr

/-- The link-name resolution loop of `PreUpdate` (lines 213-226): a name
already in `links` is skipped; otherwise `LinkByName` is consulted (the
name is recorded as looked up) and the entity is inserted when non-null. -/
def resolveStep (linkByName : String → Entity)
    (acc : List (String × Entity) × List String) (linkName : String) :
    List (String × Entity) × List String :=
  match mapFind acc.1 linkName with
  | some _ => acc
  | none =>
      let link := linkByName linkName
      if link ≠ 0 then (mapInsert acc.1 linkName link, acc.2 ++ [linkName])
      else (acc.1, acc.2 ++ [linkName])

/-- One iteration of the per-link component-write loop of `PreUpdate`
(lines 231-262): overwrite-or-create the resolved link's
`AngularVelocityCmd` from the cached per-link angular target when one
exists (else only a warning), then likewise its `LinearVelocityCmd`. -/
def writeLinkCmd (s : State) (ec : Ecm) (p : String × Entity) : Ecm :=
  let ec1 :=
    match mapFind s.angularVelocities p.1 with
    | some v => { ec with angularVelCmd := mapSet ec.angularVelCmd p.2 v }
    | none => ec
  match mapFind s.linearVelocities p.1 with
  | some v => { ec1 with linearVelCmd := mapSet ec1.linearVelCmd p.2 v }
  | none => ec1

/-- The per-link component-write loop of `PreUpdate` (lines 231-262): runs
`writeLinkCmd` over every resolved link. -/
def writeLinkCmds (s : State) (ecm : Ecm) (links : List (String × Entity)) : Ecm :=
  links.foldl (writeLinkCmd s) ecm

/-- `VelocityControl::PreUpdate` (lines 155-263).  A negative `dt` only
logs a warning — execution continues.  When paused, nothing is done.
Otherwise the cached model targets are written (overwrite-or-create) into
the model's angular then linear velocity-command components; then each
still-unresolved configured link name is looked up and bound when found;
then the per-link commands are written for every resolved link.
`linkByName` models `Model::LinkByName` against the current store
(`0 = kNullEntity` when not found). -/
def preUpdate (info : UpdateInfo) (s : State) (ecm : Ecm)
    (linkByName : String → Entity) : PreOut :=
  if info.paused then ⟨s, ecm, []⟩
  else
    let ecm1 := { ecm with
      angularVelCmd := mapSet ecm.angularVelCmd s.model s.angularVelocity }
    let ecm2 := { ecm1 with
      linearVelCmd := mapSet ecm1.linearVelCmd s.model s.linearVelocity }
    if s.linkNames.isEmpty then ⟨s, ecm2, []⟩
    else
      let r := s.linkNames.foldl (resolveStep linkByName) (s.links, [])
      let s2 := { s with links := r.1 }
      if r.1.isEmpty then ⟨s2, ecm2, r.2⟩
      else ⟨s2, writeLinkCmds s2 ecm2 r.1, r.2⟩

end VelocityControl

/-! ### Spec-side definitions and concrete example inputs -/

namespace Buoyancy

/-- The spec's force formula (§3): `force = -density · volume · gravity`. -/
def specForce (density volume : FP) (gravity : V3) : V3 :=
  V3.smul ((density.mul volume).neg) gravity

/-- The spec's torque formula (§3):
`torque = cross(rotate(centerOfVolumeOffset − massCenterOffset,
bodyOrientation), force)`. -/
def specTorque (cov massCenterOffset : V3) (bodyOrientation : Quat)
    (force : V3) : V3 :=
  (bodyOrientation.rotateVector (cov.sub massCenterOffset)).cross force

/-- The wrench `Buoyancy::PreUpdate` computes for one link from the cached
volume properties, the gravity vector, the link's `Inertial` position and
its current world rotation. -/
def linkWrench (density : FP) (g : V3) (vp : VolumeProperties) (ipos : V3)
    (rot : Quat) : Wrench :=
  let buoyancy := V3.smul ((density.neg).mul vp.volume) g
  ⟨buoyancy, (rot.rotateVector (vp.cov.sub ipos)).cross buoyancy⟩

/-- A store with one link (entity 1) whose only collision is a plane shape:
total shape volume 0. -/
def zeroVolEcm : Ecm :=
  { links := [1],
    collisionsOf := [(1, [⟨some Geom.plane, V3.zero⟩])],
    worldPoseOf := [(1, Pose.ident)],
    inertialPosOf := [(1, V3.zero)],
    wrenchCmd := [],
    hasWorld := true,
    worldGravity := some ⟨FP.zero, FP.zero, FP.num (-98/10)⟩ }

/-- A store with one link (entity 1) carrying a 2×3×4 box collision. -/
def boxEcm : Ecm :=
  { links := [1],
    collisionsOf := [(1, [⟨some (Geom.box (FP.num 2) (FP.num 3) (FP.num 4)),
                          ⟨FP.num 1, FP.zero, FP.zero⟩⟩])],
    worldPoseOf := [(1, ⟨⟨FP.num 1, FP.zero, FP.zero⟩, Quat.ident⟩)],
    inertialPosOf := [(1, V3.zero)],
    wrenchCmd := [],
    hasWorld := true,
    worldGravity := some ⟨FP.zero, FP.zero, FP.num (-98/10)⟩ }

/-- A store with no world entity and no gravity component. -/
def noWorldEcm : Ecm :=
  { links := [], collisionsOf := [], worldPoseOf := [], inertialPosOf := [],
    wrenchCmd := [], hasWorld := false, worldGravity := none }

/-- The state `Configure` produces on `boxEcm`. -/
def boxState : State := configure true none (fun _ => none) boxEcm

/-- The result of one tick on `boxEcm` (total function for the witness:
`default` is never reached there). -/
def boxTick : State × Ecm := (preUpdate boxState boxEcm).getD (boxState, boxEcm)

end Buoyancy

namespace VelocityControl

/-- The twist of the spec's model-level scenario (§8):
linear (1,0,0), angular (0,0,2). -/
def msgOneTwo : Twist :=
  ⟨⟨FP.num 1, FP.zero, FP.zero⟩, ⟨FP.zero, FP.zero, FP.num 2⟩⟩

/-- A fresh system state for a model entity 1 with no declared links. -/
def modelOnlyState : State := { model := 1 }

/-- A state with one declared link name and nothing buffered. -/
def oneLinkState : State := { model := 1, linkNames := ["base"] }

/-- A state declaring only link name "link1"; "link12" is undeclared. -/
def aliasState : State := { model := 1, linkNames := ["link1"] }

/-- A state with one declared link, a message already buffered for it and
velocities already derived for it. -/
def bufferedState : State :=
  { model := 1, linkNames := ["base"],
    linkVels := [("base", ⟨⟨FP.num 1, FP.zero, FP.zero⟩, V3.zero⟩)],
    linearVelocities := [("base", ⟨FP.num 1, FP.zero, FP.zero⟩)],
    angularVelocities := [("base", V3.zero)] }

/-- A state with declared links "a" (already resolved to entity 5) and
"b" (unresolved). -/
def twoLinkState : State :=
  { model := 1, linkNames := ["a", "b"], links := [("a", 5)] }

/-- A link-name oracle resolving "b" to entity 7 and nothing else. -/
def abOracle : String → Entity := fun n => if n = "b" then 7 else 0

/-- The tick output `PreUpdate` produces on `twoLinkState`. -/
def twoLinkOut : PreOut := preUpdate ⟨1, false⟩ twoLinkState {} abOracle

end VelocityControl

/-! ### Lemmas about the `std::map` model -/

theorem mapFind_mapSet_self {α β : Type} [DecidableEq α]
    (m : List (α × β)) (k : α) (v : β) :
    mapFind (mapSet m k v) k = some v := by
  induction m with
  | nil => simp [mapSet, mapFind]
  | cons p rest ih =>
      obtain ⟨a, b⟩ := p
      by_cases h : a = k <;> simp [mapSet, mapFind, h, ih]

theorem mapFind_mapSet_ne {α β : Type} [DecidableEq α]
    (m : List (α × β)) (k2 k : α) (v : β) (h : k2 ≠ k) :
    mapFind (mapSet m k2 v) k = mapFind m k := by
  induction m with
  | nil => simp [mapSet, mapFind, h]
  | cons p rest ih =>
      obtain ⟨a, b⟩ := p
      by_cases ha : a = k2
      · subst ha
        simp [mapSet, mapFind, h]
      · simp [mapSet, mapFind, ha, ih]

theorem mapFind_append_some {α β : Type} [DecidableEq α]
    {m : List (α × β)} {k : α} {v : β} (l : List (α × β))
    (h : mapFind m k = some v) :
    mapFind (m ++ l) k = some v := by
  induction m with
  | nil => simp [mapFind] at h
  | cons p rest ih =>
      obtain ⟨a, b⟩ := p
      by_cases ha : a = k
      · simp [mapFind, ha] at h ⊢
        exact h
      · simp [mapFind, ha] at h ⊢
        exact ih h

theorem mapFind_append_single_self {α β : Type} [DecidableEq α]
    {m : List (α × β)} {k : α} (v : β) (h : mapFind m k = none) :
    mapFind (m ++ [(k, v)]) k = some v := by
  induction m with
  | nil => simp [mapFind]
  | cons p rest ih =>
      obtain ⟨a, b⟩ := p
      by_cases ha : a = k
      · simp [mapFind, ha] at h
      · simp [mapFind, ha] at h ⊢
        exact ih h

theorem mapFind_append_single_ne {α β : Type} [DecidableEq α]
    {m : List (α × β)} {k2 k : α} (v : β) (h : k2 ≠ k) :
    mapFind (m ++ [(k2, v)]) k = mapFind m k := by
  induction m with
  | nil => simp [mapFind, h]
  | cons p rest ih =>
      obtain ⟨a, b⟩ := p
      by_cases ha : a = k <;> simp [mapFind, ha, ih]

theorem mapFind_mapInsert_preserve {α β : Type} [DecidableEq α]
    {m : List (α × β)} {k : α} {v : β} (k2 : α) (v2 : β)
    (h : mapFind m k = some v) :
    mapFind (mapInsert m k2 v2) k = some v := by
  unfold mapInsert
  cases hf : mapFind m k2 with
  | some w => exact h
  | none => exact mapFind_append_some _ h

theorem mapFind_mapInsert_none_ne {α β : Type} [DecidableEq α]
    {m : List (α × β)} {k2 k : α} (v2 : β) (hne : k2 ≠ k)
    (h : mapFind m k = none) :
    mapFind (mapInsert m k2 v2) k = none := by
  unfold mapInsert
  cases hf : mapFind m k2 with
  | some w => exact h
  | none => rw [mapFind_append_single_ne v2 hne]; exact h

theorem mem_mapInsert {α β : Type} [DecidableEq α]
    {m : List (α × β)} {k : α} {v : β} {p : α × β}
    (h : p ∈ mapInsert m k v) : p ∈ m ∨ p = (k, v) := by
  unfold mapInsert at h
  cases hf : mapFind m k with
  | some w => rw [hf] at h; exact Or.inl h
  | none =>
      rw [hf] at h
      rcases List.mem_append.mp h with h1 | h1
      · exact Or.inl h1
      · exact Or.inr (List.mem_singleton.mp h1)

theorem mapGetOrInsert_fst {α β : Type} [DecidableEq α] [Inhabited β]
    (m : List (α × β)) (k : α) :
    (mapGetOrInsert m k).1 = (mapFind m k).getD default := by
  unfold mapGetOrInsert
  cases hf : mapFind m k <;> simp [hf]

theorem mapFind_mapGetOrInsert_some {α β : Type} [DecidableEq α] [Inhabited β]
    {m : List (α × β)} {k : α} {v : β} (k2 : α)
    (h : mapFind m k = some v) :
    mapFind (mapGetOrInsert m k2).2 k = some v := by
  unfold mapGetOrInsert
  cases hf : mapFind m k2 with
  | some w => exact h
  | none => exact mapFind_append_some _ h

theorem mapFind_mapGetOrInsert_getD {α β : Type} [DecidableEq α] [Inhabited β]
    (m : List (α × β)) (k2 k : α) :
    (mapFind (mapGetOrInsert m k2).2 k).getD default
      = (mapFind m k).getD default := by
  unfold mapGetOrInsert
  cases hf : mapFind m k2 with
  | some w => rfl
  | none =>
      by_cases hk : k2 = k
      · subst hk
        rw [mapFind_append_single_self _ hf, hf]
        rfl
      · rw [mapFind_append_single_ne _ hk]

/-! ### Lemmas about the buoyancy tick loop -/

namespace Buoyancy

theorem FP.neg_mul_comm (a b : FP) : (a.neg).mul b = (a.mul b).neg := by
  cases a <;> cases b <;> simp [FP.neg, FP.mul]

theorem linkWrench_spec (d : FP) (g : V3) (vp : VolumeProperties) (ipos : V3)
    (rot : Quat) :
    linkWrench d g vp ipos rot =
      ⟨specForce d vp.volume g,
       specTorque vp.cov ipos rot (specForce d vp.volume g)⟩ := by
  simp [linkWrench, specForce, specTorque, FP.neg_mul_comm]

theorem preUpdateLink_eq (d : FP) (g : V3)
    (acc : List (Entity × VolumeProperties) × Ecm) (link : Entity) :
    preUpdateLink d g acc link =
      match mapFind acc.2.inertialPosOf link with
      | none => none
      | some ipos =>
          some ((mapGetOrInsert acc.1 link).2,
            { acc.2 with wrenchCmd := mapSet acc.2.wrenchCmd link (linkWrench d g ((mapFind acc.1 link).getD default) ipos ((mapFind acc.2.worldPoseOf link).getD Pose.ident).rot) }) := by
  cases h : mapFind acc.2.inertialPosOf link <;>
    simp [preUpdateLink, linkWrench, h, mapGetOrInsert_fst]

theorem preUpdateLinks_fields (d : FP) (g : V3) :
    ∀ (ls : List Entity) (acc res : List (Entity × VolumeProperties) × Ecm),
      preUpdateLinks d g ls acc = some res →
      res.2.worldPoseOf = acc.2.worldPoseOf
      ∧ res.2.inertialPosOf = acc.2.inertialPosOf := by
  intro ls
  induction ls with
  | nil =>
      intro acc res h
      simp [preUpdateLinks] at h
      simp [h]
  | cons hd rest ih =>
      intro acc res h
      rw [preUpdateLinks] at h
      cases hpl : preUpdateLink d g acc hd with
      | none => rw [hpl] at h; exact absurd h (by simp)
      | some acc2 =>
          rw [hpl] at h
          have hf := ih acc2 res h
          rw [preUpdateLink_eq] at hpl
          cases hin : mapFind acc.2.inertialPosOf hd with
          | none => rw [hin] at hpl; exact absurd hpl (by simp)
          | some ipos =>
              rw [hin] at hpl
              simp at hpl
              rw [← hpl] at hf
              exact hf

theorem preUpdateLinks_vmap_getD (d : FP) (g : V3) :
    ∀ (ls : List Entity) (acc res : List (Entity × VolumeProperties) × Ecm)
      (link : Entity),
      preUpdateLinks d g ls acc = some res →
      (mapFind res.1 link).getD default = (mapFind acc.1 link).getD default := by
  intro ls
  induction ls with
  | nil =>
      intro acc res link h
      simp [preUpdateLinks] at h
      simp [h]
  | cons hd rest ih =>
      intro acc res link h
      rw [preUpdateLinks] at h
      cases hpl : preUpdateLink d g acc hd with
      | none => rw [hpl] at h; exact absurd h (by simp)
      | some acc2 =>
          rw [hpl] at h
          have hrec := ih acc2 res link h
          rw [preUpdateLink_eq] at hpl
          cases hin : mapFind acc.2.inertialPosOf hd with
          | none => rw [hin] at hpl; exact absurd hpl (by simp)
          | some ipos =>
              rw [hin] at hpl
              simp at hpl
              rw [hrec, ← hpl]
              exact mapFind_mapGetOrInsert_getD acc.1 hd link

theorem preUpdateLinks_vmap_preserve (d : FP) (g : V3) :
    ∀ (ls : List Entity) (acc res : List (Entity × VolumeProperties) × Ecm)
      (link : Entity) (vp : VolumeProperties),
      preUpdateLinks d g ls acc = some res →
      mapFind acc.1 link = some vp →
      mapFind res.1 link = some vp := by
  intro ls
  induction ls with
  | nil =>
      intro acc res link vp h hf
      simp [preUpdateLinks] at h
      rw [← h]
      exact hf
  | cons hd rest ih =>
      intro acc res link vp h hf
      rw [preUpdateLinks] at h
      cases hpl : preUpdateLink d g acc hd with
      | none => rw [hpl] at h; exact absurd h (by simp)
      | some acc2 =>
          rw [hpl] at h
          rw [preUpdateLink_eq] at hpl
          cases hin : mapFind acc.2.inertialPosOf hd with
          | none => rw [hin] at hpl; exact absurd hpl (by simp)
          | some ipos =>
              rw [hin] at hpl
              simp at hpl
              refine ih acc2 res link vp h ?_
              rw [← hpl]
              exact mapFind_mapGetOrInsert_some hd hf

theorem preUpdateLinks_wrench_absent (d : FP) (g : V3) :
    ∀ (ls : List Entity) (acc res : List (Entity × VolumeProperties) × Ecm)
      (link : Entity),
      link ∉ ls →
      preUpdateLinks d g ls acc = some res →
      mapFind res.2.wrenchCmd link = mapFind acc.2.wrenchCmd link := by
  intro ls
  induction ls with
  | nil =>
      intro acc res link _ h
      simp [preUpdateLinks] at h
      simp [h]
  | cons hd rest ih =>
      intro acc res link hnot h
      have hne : hd ≠ link := fun he => hnot (he ▸ List.mem_cons_self hd rest)
      have hnr : link ∉ rest := fun hr => hnot (List.mem_cons_of_mem hd hr)
      rw [preUpdateLinks] at h
      cases hpl : preUpdateLink d g acc hd with
      | none => rw [hpl] at h; exact absurd h (by simp)
      | some acc2 =>
          rw [hpl] at h
          have hrec := ih acc2 res link hnr h
          rw [preUpdateLink_eq] at hpl
          cases hin : mapFind acc.2.inertialPosOf hd with
          | none => rw [hin] at hpl; exact absurd hpl (by simp)
          | some ipos =>
              rw [hin] at hpl
              simp at hpl
              rw [hrec, ← hpl]
              exact mapFind_mapSet_ne _ hd link _ hne

theorem preUpdateLinks_wrench (d : FP) (g : V3) :
    ∀ (ls : List Entity) (acc res : List (Entity × VolumeProperties) × Ecm)
      (link : Entity) (ipos : V3),
      link ∈ ls →
      mapFind acc.2.inertialPosOf link = some ipos →
      preUpdateLinks d g ls acc = some res →
      mapFind res.2.wrenchCmd link =
        some (linkWrench d g ((mapFind acc.1 link).getD default) ipos
          ((mapFind acc.2.worldPoseOf link).getD Pose.ident).rot) := by
  intro ls
  induction ls with
  | nil =>
      intro acc res link ipos hmem _ _
      exact absurd hmem (List.not_mem_nil link)
  | cons hd rest ih =>
      intro acc res link ipos hmem hin h
      rw [preUpdateLinks] at h
      cases hpl : preUpdateLink d g acc hd with
      | none => rw [hpl] at h; exact absurd h (by simp)
      | some acc2 =>
          rw [hpl] at h
          rw [preUpdateLink_eq] at hpl
          cases hinh : mapFind acc.2.inertialPosOf hd with
          | none => rw [hinh] at hpl; exact absurd hpl (by simp)
          | some iposh =>
              rw [hinh] at hpl
              simp at hpl
              have hfields2 : acc2.2.worldPoseOf = acc.2.worldPoseOf
                  ∧ acc2.2.inertialPosOf = acc.2.inertialPosOf := by
                rw [← hpl]; exact ⟨rfl, rfl⟩
              have hgetD : (mapFind acc2.1 link).getD default
                  = (mapFind acc.1 link).getD default := by
                rw [← hpl]
                exact mapFind_mapGetOrInsert_getD acc.1 hd link
              by_cases hr : link ∈ rest
              · have := ih acc2 res link ipos hr (by rw [hfields2.2]; exact hin) h
                rw [this, hgetD, hfields2.1]
              · have hdl : hd = link := by
                  rcases List.mem_cons.mp hmem with h1 | h1
                  · exact h1.symm
                  · exact absurd h1 hr
                subst hdl
                have habs := preUpdateLinks_wrench_absent d g rest acc2 res hd hr h
                rw [habs, ← hpl]
                have : ipos = iposh := by
                  rw [hin] at hinh; exact Option.some_injective _ hinh
                subst this
                exact mapFind_mapSet_self _ hd _

end Buoyancy

/-! ### Lemmas about the velocity-control loops -/

namespace VelocityControl

theorem resolveStep_cases (f : String → Entity)
    (acc : List (String × Entity) × List String) (n : String) :
    resolveStep f acc n = acc ∧ mapFind acc.1 n ≠ none
    ∨ (resolveStep f acc n = (mapInsert acc.1 n (f n), acc.2 ++ [n])
        ∨ resolveStep f acc n = (acc.1, acc.2 ++ [n]))
      ∧ mapFind acc.1 n = none := by
  unfold resolveStep
  cases hf : mapFind acc.1 n with
  | some e => exact Or.inl ⟨rfl, by simp⟩
  | none =>
      by_cases hz : f n ≠ 0
      · exact Or.inr ⟨Or.inl (by simp [hz]), rfl⟩
      · exact Or.inr ⟨Or.inr (by simp [hz]), rfl⟩

theorem resolveFold_lookups_mono (f : String → Entity) :
    ∀ (names : List String) (acc : List (String × Entity) × List String)
      (x : String), x ∈ acc.2 → x ∈ (names.foldl (resolveStep f) acc).2 := by
  intro names
  induction names with
  | nil => intro acc x hx; exact hx
  | cons n rest ih =>
      intro acc x hx
      rw [List.foldl_cons]
      refine ih _ x ?_
      rcases resolveStep_cases f acc n with ⟨he, _⟩ | ⟨he | he, _⟩ <;>
        rw [he] <;> simp [hx]

theorem resolveFold_resolved (f : String → Entity) :
    ∀ (names : List String) (acc : List (String × Entity) × List String)
      (ln : String) (e : Entity),
      mapFind acc.1 ln = some e →
      mapFind (names.foldl (resolveStep f) acc).1 ln = some e
      ∧ (ln ∉ acc.2 → ln ∉ (names.foldl (resolveStep f) acc).2) := by
  intro names
  induction names with
  | nil => intro acc ln e h; exact ⟨h, fun hn => hn⟩
  | cons n rest ih =>
      intro acc ln e h
      rw [List.foldl_cons]
      have hne : n ≠ ln ∨ resolveStep f acc n = acc := by
        rcases resolveStep_cases f acc n with ⟨he, _⟩ | ⟨_, hf⟩
        · exact Or.inr he
        · refine Or.inl fun hnl => ?_
          rw [hnl, h] at hf
          exact absurd hf (by simp)
      rcases resolveStep_cases f acc n with ⟨he, _⟩ | ⟨he | he, _⟩
      · rw [he]; exact ih acc ln e h
      · rw [he]
        rcases hne with hne | hacc
        · have := ih (mapInsert acc.1 n (f n), acc.2 ++ [n]) ln e
            (mapFind_mapInsert_preserve n (f n) h)
          refine ⟨this.1, fun hnot => this.2 ?_⟩
          simp [hne.symm]
          exact fun hc => absurd hc hnot
        · rw [hacc] at he
          have : acc.2 = acc.2 ++ [n] := congrArg Prod.snd he
          exact absurd this (by simp)
      · rw [he]
        rcases hne with hne | hacc
        · have := ih (acc.1, acc.2 ++ [n]) ln e h
          refine ⟨this.1, fun hnot => this.2 ?_⟩
          simp [hne.symm]
          exact fun hc => absurd hc hnot
        · rw [hacc] at he
          have : acc.2 = acc.2 ++ [n] := congrArg Prod.snd he
          exact absurd this (by simp)

theorem resolveFold_unresolved_null (f : String → Entity) (ln : String)
    (hz : f ln = 0) :
    ∀ (names : List String) (acc : List (String × Entity) × List String),
      mapFind acc.1 ln = none →
      mapFind (names.foldl (resolveStep f) acc).1 ln = none
      ∧ (ln ∈ names → ln ∈ (names.foldl (resolveStep f) acc).2) := by
  intro names
  induction names with
  | nil =>
      intro acc h
      exact ⟨h, fun hc => absurd hc (List.not_mem_nil ln)⟩
  | cons n rest ih =>
      intro acc h
      rw [List.foldl_cons]
      by_cases hnl : n = ln
      · subst hnl
        have hstep : resolveStep f acc n = (acc.1, acc.2 ++ [n]) := by
          unfold resolveStep
          rw [h]
          simp [hz]
        rw [hstep]
        have := ih (acc.1, acc.2 ++ [n]) h
        refine ⟨this.1, fun _ => ?_⟩
        exact resolveFold_lookups_mono f rest _ n (by simp)
      · rcases resolveStep_cases f acc n with ⟨he, _⟩ | ⟨he | he, _⟩ <;> rw [he]
        · have := ih acc h
          exact ⟨this.1, fun hm => this.2 (by
            rcases List.mem_cons.mp hm with h1 | h1
            · exact absurd h1.symm hnl
            · exact h1)⟩
        · have hn : mapFind (mapInsert acc.1 n (f n)) ln = none :=
            mapFind_mapInsert_none_ne (f n) hnl h
          have := ih (mapInsert acc.1 n (f n), acc.2 ++ [n]) hn
          exact ⟨this.1, fun hm => this.2 (by
            rcases List.mem_cons.mp hm with h1 | h1
            · exact absurd h1.symm hnl
            · exact h1)⟩
        · have := ih (acc.1, acc.2 ++ [n]) h
          exact ⟨this.1, fun hm => this.2 (by
            rcases List.mem_cons.mp hm with h1 | h1
            · exact absurd h1.symm hnl
            · exact h1)⟩

theorem resolveFold_unresolved_found (f : String → Entity) (ln : String)
    (hz : f ln ≠ 0) :
    ∀ (names : List String) (acc : List (String × Entity) × List String),
      mapFind acc.1 ln = none → ln ∈ names →
      mapFind (names.foldl (resolveStep f) acc).1 ln = some (f ln)
      ∧ ln ∈ (names.foldl (resolveStep f) acc).2 := by
  intro names
  induction names with
  | nil =>
      intro acc _ hmem
      exact absurd hmem (List.not_mem_nil ln)
  | cons n rest ih =>
      intro acc h hmem
      rw [List.foldl_cons]
      by_cases hnl : n = ln
      · subst hnl
        have hstep : resolveStep f acc n = (mapInsert acc.1 n (f n), acc.2 ++ [n]) := by
          unfold resolveStep
          rw [h]
          simp [hz]
        rw [hstep]
        have hfound : mapFind (mapInsert acc.1 n (f n)) n = some (f n) := by
          unfold mapInsert
          rw [h]
          exact mapFind_append_single_self (f n) h
        have := resolveFold_resolved f rest (mapInsert acc.1 n (f n), acc.2 ++ [n])
          n (f n) hfound
        exact ⟨this.1, resolveFold_lookups_mono f rest _ n (by simp)⟩
      · have hmem2 : ln ∈ rest := by
          rcases List.mem_cons.mp hmem with h1 | h1
          · exact absurd h1.symm hnl
          · exact h1
        rcases resolveStep_cases f acc n with ⟨he, _⟩ | ⟨he | he, _⟩ <;> rw [he]
        · exact ih acc h hmem2
        · exact ih (mapInsert acc.1 n (f n), acc.2 ++ [n])
            (mapFind_mapInsert_none_ne (f n) hnl h) hmem2
        · exact ih (acc.1, acc.2 ++ [n]) h hmem2

theorem resolveFold_links_from (f : String → Entity) :
    ∀ (names : List String) (acc : List (String × Entity) × List String)
      (p : String × Entity),
      p ∈ (names.foldl (resolveStep f) acc).1 →
      p ∈ acc.1 ∨ p.2 = f p.1 := by
  intro names
  induction names with
  | nil => intro acc p h; exact Or.inl h
  | cons n rest ih =>
      intro acc p h
      rw [List.foldl_cons] at h
      rcases resolveStep_cases f acc n with ⟨he, _⟩ | ⟨he | he, _⟩ <;> rw [he] at h
      · exact ih acc p h
      · rcases ih _ p h with h1 | h1
        · rcases mem_mapInsert h1 with h2 | h2
          · exact Or.inl h2
          · subst h2; exact Or.inr rfl
        · exact Or.inr h1
      · exact ih (acc.1, acc.2 ++ [n]) p h

theorem writeLinkCmd_preserve (s : State) (k : Entity) (ec : Ecm)
    (p : String × Entity) (hpk : p.2 ≠ k) :
    mapFind (writeLinkCmd s ec p).angularVelCmd k = mapFind ec.angularVelCmd k
    ∧ mapFind (writeLinkCmd s ec p).linearVelCmd k = mapFind ec.linearVelCmd k := by
  unfold writeLinkCmd
  cases hav : mapFind s.angularVelocities p.1 <;>
    cases hlv : mapFind s.linearVelocities p.1 <;>
      simp [mapFind_mapSet_ne _ p.2 k _ hpk]

theorem writeLinkCmds_preserve (s : State) (k : Entity) :
    ∀ (links : List (String × Entity)) (ec : Ecm),
      (∀ p ∈ links, p.2 ≠ k) →
      mapFind (writeLinkCmds s ec links).angularVelCmd k = mapFind ec.angularVelCmd k
      ∧ mapFind (writeLinkCmds s ec links).linearVelCmd k = mapFind ec.linearVelCmd k := by
  intro links
  induction links with
  | nil => intro ec _; exact ⟨rfl, rfl⟩
  | cons p rest ih =>
      intro ec hall
      have hpk : p.2 ≠ k := hall p (List.mem_cons_self p rest)
      have hrest : ∀ q ∈ rest, q.2 ≠ k :=
        fun q hq => hall q (List.mem_cons_of_mem p hq)
      have h1 := writeLinkCmd_preserve s k ec p hpk
      have h2 := ih (writeLinkCmd s ec p) hrest
      simp only [writeLinkCmds, List.foldl_cons] at h2 ⊢
      exact ⟨h2.1.trans h1.1, h2.2.trans h1.2⟩

theorem linkCmdStoreFold_preserve (msg : Twist) (topic : String) :
    ∀ (names : List String) (m : List (String × Twist)) (k : String) (v : Twist),
      mapFind m k = some v →
      mapFind (names.foldl (linkCmdStore msg topic) m) k = some v := by
  intro names
  induction names with
  | nil => intro m k v h; exact h
  | cons n rest ih =>
      intro m k v h
      rw [List.foldl_cons]
      refine ih _ k v ?_
      unfold linkCmdStore
      by_cases hs : hasSubstr topic.toList n.toList
      · simp only [hs, if_true]
        exact mapFind_mapInsert_preserve n msg h
      · simp only [hs, if_false]
        exact h

theorem linkVelStoreFold_linkVels :
    ∀ (pairs : List (String × Twist)) (st : State),
      (pairs.foldl linkVelStore st).linkVels = st.linkVels := by
  intro pairs
  induction pairs with
  | nil => intro st; rfl
  | cons p rest ih =>
      intro st
      rw [List.foldl_cons, ih]
      rfl

theorem linkVelStoreFold_linear_preserve :
    ∀ (pairs : List (String × Twist)) (st : State) (k : String) (v : V3),
      mapFind st.linearVelocities k = some v →
      mapFind (pairs.foldl linkVelStore st).linearVelocities k = some v := by
  intro pairs
  induction pairs with
  | nil => intro st k v h; exact h
  | cons p rest ih =>
      intro st k v h
      rw [List.foldl_cons]
      exact ih _ k v (mapFind_mapInsert_preserve p.1 p.2.linear h)

theorem linkVelStoreFold_angular_preserve :
    ∀ (pairs : List (String × Twist)) (st : State) (k : String) (v : V3),
      mapFind st.angularVelocities k = some v →
      mapFind (pairs.foldl linkVelStore st).angularVelocities k = some v := by
  intro pairs
  induction pairs with
  | nil => intro st k v h; exact h
  | cons p rest ih =>
      intro st k v h
      rw [List.foldl_cons]
      exact ih _ k v (mapFind_mapInsert_preserve p.1 p.2.angular h)

end VelocityControl

/-! ### Rewrite lemmas for `FP` arithmetic (rational operations do not
reduce definitionally, so concrete runs are evaluated by `simp`) -/

theorem FP.add_num (a b : ℚ) : FP.add (FP.num a) (FP.num b) = FP.num (a + b) := rfl

theorem FP.add_nanl (b : FP) : FP.add FP.nan b = FP.nan := by cases b <;> rfl

theorem FP.add_nanr (a : FP) : FP.add a FP.nan = FP.nan := by cases a <;> rfl

theorem FP.sub_num (a b : ℚ) : FP.sub (FP.num a) (FP.num b) = FP.num (a - b) := rfl

theorem FP.sub_nanl (b : FP) : FP.sub FP.nan b = FP.nan := by cases b <;> rfl

theorem FP.sub_nanr (a : FP) : FP.sub a FP.nan = FP.nan := by cases a <;> rfl

theorem FP.mul_num (a b : ℚ) : FP.mul (FP.num a) (FP.num b) = FP.num (a * b) := rfl

theorem FP.mul_nanl (b : FP) : FP.mul FP.nan b = FP.nan := by cases b <;> rfl

theorem FP.mul_nanr (a : FP) : FP.mul a FP.nan = FP.nan := by cases a <;> rfl

theorem FP.neg_num (a : ℚ) : FP.neg (FP.num a) = FP.num (-a) := rfl

theorem FP.div_num (a b : ℚ) :
    FP.div (FP.num a) (FP.num b) = if b = 0 then FP.nan else FP.num (a / b) := rfl

theorem FP.div_nanl (b : FP) : FP.div FP.nan b = FP.nan := by cases b <;> rfl

theorem FP.div_nanr (a : FP) : FP.div a FP.nan = FP.nan := by cases a <;> rfl

/-! ### Claim theorems -/

/-- C1: the claim says a zero-total-volume body yields exactly zero force
and torque, with the division by total volume guarded and no non-finite
value written to the wrench.  On the code, for a link whose only collision
is a plane (total volume 0), `Configure` divides `weightedPosSum` (zero) by
`volumeSum` (zero) unguarded, caching a NaN center of volume, and the next
`PreUpdate` writes a wrench whose force is exactly zero but whose torque is
NaN — a non-finite value in the external-wrench slot. -/
theorem buoyancy_zero_volume_writes_nonfinite_torque :
    mapFind (Buoyancy.configure true none (fun _ => none)
        Buoyancy.zeroVolEcm).volPropsMap 1
      = some ⟨⟨FP.nan, FP.nan, FP.nan⟩, FP.num 0⟩
    ∧ (Buoyancy.preUpdate
          (Buoyancy.configure true none (fun _ => none) Buoyancy.zeroVolEcm)
          Buoyancy.zeroVolEcm).map (fun r => mapFind r.2.wrenchCmd 1)
      = some (some ⟨⟨FP.num 0, FP.num 0, FP.num 0⟩, ⟨FP.nan, FP.nan, FP.nan⟩⟩) := by
  norm_num [Buoyancy.configure, Buoyancy.configureLink, Buoyancy.preUpdate,
    Buoyancy.preUpdateLinks, Buoyancy.preUpdateLink, Buoyancy.zeroVolEcm,
    Buoyancy.shapeVolume, mapFind, mapSet, mapGetOrInsert, mapInsert,
    FP.add_num, FP.add_nanl, FP.add_nanr, FP.sub_num, FP.sub_nanl, FP.sub_nanr,
    FP.mul_num, FP.mul_nanl, FP.mul_nanr, FP.neg_num, FP.div_num, FP.div_nanl,
    FP.div_nanr, FP.zero, V3.add, V3.sub, V3.smul, V3.divScalar, V3.cross,
    V3.zero, Quat.mul, Quat.inverse, Quat.rotateVector, Quat.ident, Pose.ident]

/-- C2: the claim says that of two messages arriving on a declared link's
channel before the next tick, the second (most recent) is buffered.  On the
code, `OnLinkCmdVel` uses `std::map::insert`, which does not overwrite, so
the buffered pending command still holds the FIRST message after the
second arrives. -/
theorem velocitycontrol_link_buffer_keeps_first_message :
    mapFind (VelocityControl.onLinkCmdVel
        (VelocityControl.onLinkCmdVel VelocityControl.oneLinkState
          ⟨⟨FP.num 1, FP.zero, FP.zero⟩, V3.zero⟩
          (VelocityControl.linkTopic "veh" "base"))
        ⟨⟨FP.num 2, FP.zero, FP.zero⟩, V3.zero⟩
        (VelocityControl.linkTopic "veh" "base")).linkVels "base"
      = some ⟨⟨FP.num 1, FP.zero, FP.zero⟩, V3.zero⟩
    ∧ (⟨⟨FP.num 1, FP.zero, FP.zero⟩, V3.zero⟩ : VelocityControl.Twist)
      ≠ ⟨⟨FP.num 2, FP.zero, FP.zero⟩, V3.zero⟩ := by
  decide

/-- C6: the claim says a message on a channel of an undeclared link name
never mutates a declared link's buffer, the callback checking that the
originating channel actually matches.  On the code the check is
`topic.find(linkName) != npos` — substring matching — so a message whose
topic is built for the undeclared name "link12" is stored under the
declared name "link1" (whose name is a substring of that topic). -/
theorem velocitycontrol_undeclared_link_topic_crosstalk :
    mapFind VelocityControl.aliasState.linkVels "link1" = none
    ∧ ("link12" ∈ VelocityControl.aliasState.linkNames) = False
    ∧ mapFind (VelocityControl.onLinkCmdVel VelocityControl.aliasState
        ⟨⟨FP.num 3, FP.zero, FP.zero⟩, V3.zero⟩
        (VelocityControl.linkTopic "veh" "link12")).linkVels "link1"
      = some ⟨⟨FP.num 3, FP.zero, FP.zero⟩, V3.zero⟩ := by
  refine ⟨rfl, ?_, by decide⟩
  simp [VelocityControl.aliasState]

/-- C5 (counterexample): the claim says `PreUpdate` performs no entity-store
writes when the simulation time has moved backward (`dt < 0`).  On the
code a backward jump only logs a warning and execution continues: with
`dt = -1` and not paused, the model's velocity-command components are
still written (created here). -/
theorem velocitycontrol_preupdate_writes_despite_negative_dt :
    (VelocityControl.preUpdate ⟨-1, false⟩ VelocityControl.modelOnlyState {}
        (fun _ => 0)).ecm ≠ ({} : VelocityControl.Ecm)
    ∧ mapFind (VelocityControl.preUpdate ⟨-1, false⟩
        VelocityControl.modelOnlyState {} (fun _ => 0)).ecm.linearVelCmd 1
      = some V3.zero
    ∧ mapFind ({} : VelocityControl.Ecm).linearVelCmd 1 = none := by
  decide

/-- C5 (amended): `PreUpdate` performs no writes to the entity store when
the step is paused — the tick is a complete no-op; a backward time jump
(`dt < 0`) only logs a warning and the tick otherwise proceeds normally. -/
theorem velocitycontrol_preupdate_paused_is_noop
    (info : VelocityControl.UpdateInfo) (s : VelocityControl.State)
    (ecm : VelocityControl.Ecm) (f : String → VelocityControl.Entity)
    (hp : info.paused = true) :
    VelocityControl.preUpdate info s ecm f = ⟨s, ecm, []⟩ := by
  unfold VelocityControl.preUpdate
  simp [hp]

theorem velocitycontrol_preupdate_paused_is_noop_witness :
    (⟨-1, true⟩ : VelocityControl.UpdateInfo).paused = true
    ∧ VelocityControl.preUpdate ⟨-1, true⟩ VelocityControl.modelOnlyState {}
        (fun _ => 0)
      = ⟨VelocityControl.modelOnlyState, {}, []⟩ :=
  ⟨rfl, velocitycontrol_preupdate_paused_is_noop ⟨-1, true⟩
    VelocityControl.modelOnlyState {} (fun _ => 0) rfl⟩

/-- C7: when `Configure` is given an entity that is not a valid model, or
there is no world entity, or the world has no gravity component, the
`gravity` pointer stays null; and any `PreUpdate` of a state with a null
`gravity` pointer returns the state and the store untouched (no reads of
the volume cache, no wrench writes, no crash) — so the engine is
permanently inert. -/
theorem buoyancy_config_failure_leaves_engine_inert
    (sdfD : Option FP) (mv : String → Option FP) (ecm ecm2 : Buoyancy.Ecm)
    (s : Buoyancy.State) (hg : s.gravity = none) :
    (Buoyancy.configure false sdfD mv ecm).gravity = none
    ∧ (ecm.hasWorld = false → (Buoyancy.configure true sdfD mv ecm).gravity = none)
    ∧ (ecm.worldGravity = none → (Buoyancy.configure true sdfD mv ecm).gravity = none)
    ∧ Buoyancy.preUpdate s ecm2 = some (s, ecm2) := by
  refine ⟨?_, ?_, ?_, ?_⟩
  · rfl
  · intro hw
    simp [Buoyancy.configure, hw]
  · intro hwg
    cases hw : ecm.hasWorld <;> simp [Buoyancy.configure, hw, hwg]
  · unfold Buoyancy.preUpdate
    rw [hg]

theorem buoyancy_config_failure_leaves_engine_inert_witness :
    Buoyancy.noWorldEcm.hasWorld = false
    ∧ Buoyancy.noWorldEcm.worldGravity = none
    ∧ (⟨FP.num 1000, none, []⟩ : Buoyancy.State).gravity = none
    ∧ (Buoyancy.configure false none (fun _ => none) Buoyancy.noWorldEcm).gravity = none
    ∧ (Buoyancy.configure true none (fun _ => none) Buoyancy.noWorldEcm).gravity = none
    ∧ Buoyancy.preUpdate ⟨FP.num 1000, none, []⟩ Buoyancy.zeroVolEcm
      = some (⟨FP.num 1000, none, []⟩, Buoyancy.zeroVolEcm) := by
  have h := buoyancy_config_failure_leaves_engine_inert none (fun _ => none)
    Buoyancy.noWorldEcm Buoyancy.zeroVolEcm ⟨FP.num 1000, none, []⟩ rfl
  exact ⟨rfl, rfl, rfl, h.1, h.2.1 rfl, h.2.2.2⟩

/-- C9: the per-link volume properties cached at `Configure` time are never
mutated by a later `PreUpdate`: any entry of `volPropsMap` present before a
tick is present with the same value afterwards (the tick reads the cache —
`operator[]` can only default-insert missing keys, never change existing
ones) and only the wrench output varies with the pose in the store. -/
theorem buoyancy_volume_cache_immutable_across_ticks
    (s : Buoyancy.State) (ecm : Buoyancy.Ecm) (s2 : Buoyancy.State)
    (ecm2 : Buoyancy.Ecm) (link : Buoyancy.Entity)
    (vp : Buoyancy.VolumeProperties)
    (hrun : Buoyancy.preUpdate s ecm = some (s2, ecm2))
    (hfind : mapFind s.volPropsMap link = some vp) :
    mapFind s2.volPropsMap link = some vp := by
  unfold Buoyancy.preUpdate at hrun
  cases hg : s.gravity with
  | none =>
      rw [hg] at hrun
      simp only [] at hrun
      simp at hrun
      rw [← hrun.1]
      exact hfind
  | some g =>
      rw [hg] at hrun
      simp only [] at hrun
      cases hpl : Buoyancy.preUpdateLinks s.fluidDensity g ecm.links
          (s.volPropsMap, ecm) with
      | none => rw [hpl] at hrun; simp at hrun
      | some r =>
          obtain ⟨vmap, e2⟩ := r
          rw [hpl] at hrun
          simp at hrun
          have hp := Buoyancy.preUpdateLinks_vmap_preserve s.fluidDensity g
            ecm.links (s.volPropsMap, ecm) (vmap, e2) link vp hpl hfind
          rw [← hrun.1]
          exact hp

theorem buoyancy_volume_cache_immutable_across_ticks_witness :
    Buoyancy.preUpdate Buoyancy.boxState Buoyancy.boxEcm
      = some (Buoyancy.boxTick.1, Buoyancy.boxTick.2)
    ∧ mapFind Buoyancy.boxState.volPropsMap 1 = some ⟨V3.zero, FP.num 24⟩
    ∧ mapFind Buoyancy.boxTick.1.volPropsMap 1 = some ⟨V3.zero, FP.num 24⟩ := by
  have h1 : Buoyancy.preUpdate Buoyancy.boxState Buoyancy.boxEcm
      = some (Buoyancy.boxTick.1, Buoyancy.boxTick.2) := by
    norm_num [Buoyancy.boxState, Buoyancy.boxTick, Buoyancy.configure,
      Buoyancy.configureLink, Buoyancy.preUpdate, Buoyancy.preUpdateLinks,
      Buoyancy.preUpdateLink, Buoyancy.boxEcm, Buoyancy.shapeVolume, mapFind,
      mapSet, mapGetOrInsert, mapInsert, FP.add_num, FP.add_nanl, FP.add_nanr,
      FP.sub_num, FP.sub_nanl, FP.sub_nanr, FP.mul_num, FP.mul_nanl,
      FP.mul_nanr, FP.neg_num, FP.div_num, FP.div_nanl, FP.div_nanr, FP.zero,
      V3.add, V3.sub, V3.smul, V3.divScalar, V3.cross, V3.zero, Quat.mul,
      Quat.inverse, Quat.rotateVector, Quat.ident, Pose.ident]
  have h2 : mapFind Buoyancy.boxState.volPropsMap 1 = some ⟨V3.zero, FP.num 24⟩ := by
    norm_num [Buoyancy.boxState, Buoyancy.configure, Buoyancy.configureLink,
      Buoyancy.boxEcm, Buoyancy.shapeVolume, mapFind, mapSet, mapGetOrInsert,
      FP.add_num, FP.mul_num, FP.neg_num, FP.div_num, FP.sub_num, FP.zero,
      V3.add, V3.sub, V3.smul, V3.divScalar, V3.zero, Pose.ident]
  exact ⟨h1, h2, buoyancy_volume_cache_immutable_across_ticks
    Buoyancy.boxState Buoyancy.boxEcm Buoyancy.boxTick.1 Buoyancy.boxTick.2
    1 ⟨V3.zero, FP.num 24⟩ h1 h2⟩

/-- C3: on every tick with gravity resolved, for every link of the model
with an `Inertial` component, the buoyancy engine writes into the link's
external-wrench slot (overwrite-or-create) exactly the pair prescribed by
the spec: `force = -fluidDensity · volume · gravity`, and
`torque = cross(rotate(centerOfVolumeOffset − massCenterOffset,
bodyOrientation), force)` with the orientation taken from the link's
current world pose in this tick's store, volume and offset from the cached
volume properties. -/
theorem buoyancy_preupdate_wrench_matches_spec
    (s : Buoyancy.State) (ecm : Buoyancy.Ecm) (g ipos : V3)
    (link : Buoyancy.Entity) (s2 : Buoyancy.State) (ecm2 : Buoyancy.Ecm)
    (hg : s.gravity = some g) (hmem : link ∈ ecm.links)
    (hin : mapFind ecm.inertialPosOf link = some ipos)
    (hrun : Buoyancy.preUpdate s ecm = some (s2, ecm2)) :
    mapFind ecm2.wrenchCmd link
      = some ⟨Buoyancy.specForce s.fluidDensity
                ((mapFind s.volPropsMap link).getD default).volume g,
              Buoyancy.specTorque
                ((mapFind s.volPropsMap link).getD default).cov ipos
                ((mapFind ecm.worldPoseOf link).getD Pose.ident).rot
                (Buoyancy.specForce s.fluidDensity
                  ((mapFind s.volPropsMap link).getD default).volume g)⟩ := by
  unfold Buoyancy.preUpdate at hrun
  rw [hg] at hrun
  simp only [] at hrun
  cases hpl : Buoyancy.preUpdateLinks s.fluidDensity g ecm.links
      (s.volPropsMap, ecm) with
  | none => rw [hpl] at hrun; simp at hrun
  | some r =>
      obtain ⟨vmap, e2⟩ := r
      rw [hpl] at hrun
      simp at hrun
      have hw := Buoyancy.preUpdateLinks_wrench s.fluidDensity g ecm.links
        (s.volPropsMap, ecm) (vmap, e2) link ipos hmem hin hpl
      rw [Buoyancy.linkWrench_spec] at hw
      rw [← hrun.2]
      exact hw

theorem buoyancy_preupdate_wrench_matches_spec_witness :
    Buoyancy.boxState.gravity = some ⟨FP.num 0, FP.num 0, FP.num (-98/10)⟩
    ∧ 1 ∈ Buoyancy.boxEcm.links
    ∧ mapFind Buoyancy.boxEcm.inertialPosOf 1 = some V3.zero
    ∧ Buoyancy.preUpdate Buoyancy.boxState Buoyancy.boxEcm
      = some (Buoyancy.boxTick.1, Buoyancy.boxTick.2)
    ∧ mapFind Buoyancy.boxTick.2.wrenchCmd 1
      = some ⟨Buoyancy.specForce Buoyancy.boxState.fluidDensity
                ((mapFind Buoyancy.boxState.volPropsMap 1).getD default).volume
                ⟨FP.num 0, FP.num 0, FP.num (-98/10)⟩,
              Buoyancy.specTorque
                ((mapFind Buoyancy.boxState.volPropsMap 1).getD default).cov
                V3.zero ((mapFind Buoyancy.boxEcm.worldPoseOf 1).getD Pose.ident).rot
                (Buoyancy.specForce Buoyancy.boxState.fluidDensity
                  ((mapFind Buoyancy.boxState.volPropsMap 1).getD default).volume
                  ⟨FP.num 0, FP.num 0, FP.num (-98/10)⟩)⟩ := by
  have hg : Buoyancy.boxState.gravity
      = some ⟨FP.num 0, FP.num 0, FP.num (-98/10)⟩ := rfl
  have hmem : 1 ∈ Buoyancy.boxEcm.links := by
    norm_num [Buoyancy.boxEcm]
  have hin : mapFind Buoyancy.boxEcm.inertialPosOf 1 = some V3.zero := rfl
  have h1 : Buoyancy.preUpdate Buoyancy.boxState Buoyancy.boxEcm
      = some (Buoyancy.boxTick.1, Buoyancy.boxTick.2) := by
    norm_num [Buoyancy.boxState, Buoyancy.boxTick, Buoyancy.configure,
      Buoyancy.configureLink, Buoyancy.preUpdate, Buoyancy.preUpdateLinks,
      Buoyancy.preUpdateLink, Buoyancy.boxEcm, Buoyancy.shapeVolume, mapFind,
      mapSet, mapGetOrInsert, mapInsert, FP.add_num, FP.add_nanl, FP.add_nanr,
      FP.sub_num, FP.sub_nanl, FP.sub_nanr, FP.mul_num, FP.mul_nanl,
      FP.mul_nanr, FP.neg_num, FP.div_num, FP.div_nanl, FP.div_nanr, FP.zero,
      V3.add, V3.sub, V3.smul, V3.divScalar, V3.cross, V3.zero, Quat.mul,
      Quat.inverse, Quat.rotateVector, Quat.ident, Pose.ident]
  exact ⟨hg, hmem, hin, h1, buoyancy_preupdate_wrench_matches_spec
    Buoyancy.boxState Buoyancy.boxEcm ⟨FP.num 0, FP.num 0, FP.num (-98/10)⟩
    V3.zero 1 Buoyancy.boxTick.1 Buoyancy.boxTick.2 hg hmem hin h1⟩

/-- C10 (implicit): the per-link caches — the buffered pending-command map
`linkVels` and the derived per-link `linearVelocities`/`angularVelocities`
maps — are insert-only: an existing entry survives any later message
arrival (`OnLinkCmdVel`) and any `PostUpdate` unchanged, so the first
message accepted for a link permanently determines that link's commanded
velocity. -/
theorem velocitycontrol_link_caches_insert_only
    (s : VelocityControl.State) (msg : VelocityControl.Twist) (topic : String)
    (info : VelocityControl.UpdateInfo) (k : String)
    (v : VelocityControl.Twist) (lv av : V3) :
    (mapFind s.linkVels k = some v →
      mapFind (VelocityControl.onLinkCmdVel s msg topic).linkVels k = some v)
    ∧ (VelocityControl.postUpdate info s).linkVels = s.linkVels
    ∧ (mapFind s.linearVelocities k = some lv →
        mapFind (VelocityControl.postUpdate info s).linearVelocities k = some lv)
    ∧ (mapFind s.angularVelocities k = some av →
        mapFind (VelocityControl.postUpdate info s).angularVelocities k = some av)
    ∧ (VelocityControl.onLinkCmdVel s msg topic).linearVelocities
      = s.linearVelocities
    ∧ (VelocityControl.onLinkCmdVel s msg topic).angularVelocities
      = s.angularVelocities := by
  obtain ⟨dt, paused⟩ := info
  refine ⟨?_, ?_, ?_, ?_, rfl, rfl⟩
  · intro h
    exact VelocityControl.linkCmdStoreFold_preserve msg topic s.linkNames
      s.linkVels k v h
  · cases paused with
    | true => rfl
    | false =>
        show (VelocityControl.updateLinkVelocity
          (VelocityControl.updateVelocity s)).linkVels = s.linkVels
        exact VelocityControl.linkVelStoreFold_linkVels
          (VelocityControl.updateVelocity s).linkVels
          (VelocityControl.updateVelocity s)
  · intro h
    cases paused with
    | true => exact h
    | false =>
        show mapFind (VelocityControl.updateLinkVelocity
          (VelocityControl.updateVelocity s)).linearVelocities k = some lv
        exact VelocityControl.linkVelStoreFold_linear_preserve
          (VelocityControl.updateVelocity s).linkVels
          (VelocityControl.updateVelocity s) k lv h
  · intro h
    cases paused with
    | true => exact h
    | false =>
        show mapFind (VelocityControl.updateLinkVelocity
          (VelocityControl.updateVelocity s)).angularVelocities k = some av
        exact VelocityControl.linkVelStoreFold_angular_preserve
          (VelocityControl.updateVelocity s).linkVels
          (VelocityControl.updateVelocity s) k av h

theorem velocitycontrol_link_caches_insert_only_witness :
    mapFind VelocityControl.bufferedState.linkVels "base"
      = some ⟨⟨FP.num 1, FP.zero, FP.zero⟩, V3.zero⟩
    ∧ mapFind (VelocityControl.onLinkCmdVel VelocityControl.bufferedState
        ⟨⟨FP.num 9, FP.zero, FP.zero⟩, V3.zero⟩
        (VelocityControl.linkTopic "veh" "base")).linkVels "base"
      = some ⟨⟨FP.num 1, FP.zero, FP.zero⟩, V3.zero⟩
    ∧ (VelocityControl.postUpdate ⟨1, false⟩
        VelocityControl.bufferedState).linkVels
      = VelocityControl.bufferedState.linkVels
    ∧ mapFind VelocityControl.bufferedState.linearVelocities "base"
      = some ⟨FP.num 1, FP.zero, FP.zero⟩
    ∧ mapFind (VelocityControl.postUpdate ⟨1, false⟩
        VelocityControl.bufferedState).linearVelocities "base"
      = some ⟨FP.num 1, FP.zero, FP.zero⟩ := by
  have h := velocitycontrol_link_caches_insert_only
    VelocityControl.bufferedState ⟨⟨FP.num 9, FP.zero, FP.zero⟩, V3.zero⟩
    (VelocityControl.linkTopic "veh" "base") ⟨1, false⟩ "base"
    ⟨⟨FP.num 1, FP.zero, FP.zero⟩, V3.zero⟩ ⟨FP.num 1, FP.zero, FP.zero⟩
    V3.zero
  exact ⟨by decide, h.1 (by decide), h.2.1, by decide, h.2.2.1 (by decide)⟩

/-- C8: link-name resolution is a one-way state machine.  On a non-paused
tick: a name already bound in `links` keeps its binding and is not looked
up (`LinkByName` is not consulted for it); a configured name not yet bound
is looked up this tick — bound to the found entity when the lookup
succeeds, left unresolved (to be retried, the link skipped) when it
returns the null entity. -/
theorem velocitycontrol_link_resolution_one_way
    (info : VelocityControl.UpdateInfo) (s : VelocityControl.State)
    (ecm : VelocityControl.Ecm) (f : String → VelocityControl.Entity)
    (ln : String) (hp : info.paused = false) :
    (∀ e, mapFind s.links ln = some e →
        mapFind (VelocityControl.preUpdate info s ecm f).st.links ln = some e
        ∧ ln ∉ (VelocityControl.preUpdate info s ecm f).lookups)
    ∧ (ln ∈ s.linkNames → mapFind s.links ln = none →
        ln ∈ (VelocityControl.preUpdate info s ecm f).lookups
        ∧ (f ln = 0 →
            mapFind (VelocityControl.preUpdate info s ecm f).st.links ln = none)
        ∧ (f ln ≠ 0 →
            mapFind (VelocityControl.preUpdate info s ecm f).st.links ln
              = some (f ln))) := by
  by_cases hemp : s.linkNames.isEmpty = true
  · have hst : (VelocityControl.preUpdate info s ecm f).st = s := by
      simp [VelocityControl.preUpdate, hp, hemp]
    have hlk : (VelocityControl.preUpdate info s ecm f).lookups = [] := by
      simp [VelocityControl.preUpdate, hp, hemp]
    constructor
    · intro e he
      rw [hst, hlk]
      exact ⟨he, List.not_mem_nil ln⟩
    · intro hmem _
      rw [List.isEmpty_iff] at hemp
      rw [hemp] at hmem
      exact absurd hmem (List.not_mem_nil ln)
  · have hemp2 : s.linkNames.isEmpty = false := by
      cases h : s.linkNames.isEmpty
      · rfl
      · exact absurd h hemp
    have hst : (VelocityControl.preUpdate info s ecm f).st.links
        = (s.linkNames.foldl (VelocityControl.resolveStep f) (s.links, [])).1 := by
      by_cases hr1 : (s.linkNames.foldl (VelocityControl.resolveStep f)
          (s.links, [])).1.isEmpty = true
      · simp [VelocityControl.preUpdate, hp, hemp2, hr1]
      · simp [VelocityControl.preUpdate, hp, hemp2, hr1]
    have hlk : (VelocityControl.preUpdate info s ecm f).lookups
        = (s.linkNames.foldl (VelocityControl.resolveStep f) (s.links, [])).2 := by
      by_cases hr1 : (s.linkNames.foldl (VelocityControl.resolveStep f)
          (s.links, [])).1.isEmpty = true
      · simp [VelocityControl.preUpdate, hp, hemp2, hr1]
      · simp [VelocityControl.preUpdate, hp, hemp2, hr1]
    constructor
    · intro e he
      have hres := VelocityControl.resolveFold_resolved f s.linkNames
        (s.links, []) ln e he
      rw [hst, hlk]
      exact ⟨hres.1, hres.2 (List.not_mem_nil ln)⟩
    · intro hmem hnone
      rw [hst, hlk]
      by_cases hz : f ln = 0
      · have h2 := VelocityControl.resolveFold_unresolved_null f ln hz
          s.linkNames (s.links, []) hnone
        exact ⟨h2.2 hmem, fun _ => h2.1, fun hnz => absurd hz hnz⟩
      · have h3 := VelocityControl.resolveFold_unresolved_found f ln hz
          s.linkNames (s.links, []) hnone hmem
        exact ⟨h3.2, fun h0 => absurd h0 hz, fun _ => h3.1⟩

theorem velocitycontrol_link_resolution_one_way_witness :
    (⟨1, false⟩ : VelocityControl.UpdateInfo).paused = false
    ∧ mapFind VelocityControl.twoLinkState.links "a" = some 5
    ∧ mapFind VelocityControl.twoLinkOut.st.links "a" = some 5
    ∧ "a" ∉ VelocityControl.twoLinkOut.lookups
    ∧ "b" ∈ VelocityControl.twoLinkState.linkNames
    ∧ mapFind VelocityControl.twoLinkState.links "b" = none
    ∧ "b" ∈ VelocityControl.twoLinkOut.lookups
    ∧ mapFind VelocityControl.twoLinkOut.st.links "b" = some 7 := by
  have ha := velocitycontrol_link_resolution_one_way ⟨1, false⟩
    VelocityControl.twoLinkState {} VelocityControl.abOracle "a" rfl
  have hb := velocitycontrol_link_resolution_one_way ⟨1, false⟩
    VelocityControl.twoLinkState {} VelocityControl.abOracle "b" rfl
  have h1 := ha.1 5 (by decide)
  have h2 := hb.2 (by decide) (by decide)
  have h3 := h2.2.2 (by decide)
  exact ⟨rfl, by decide, h1.1, h1.2, by decide, by decide, h2.1, h3⟩

/-- C4: on every non-paused tick, `PreUpdate` writes the cached model
targets into the model's linear/angular velocity-command components
(create-if-absent, else overwrite), regardless of whether a new message
arrived — provided no configured link resolves to the model entity itself,
which is how the store is shaped in practice.  And concretely: after a
model-level message with linear (1,0,0) and angular (0,0,2) is received
and one `PostUpdate` then `PreUpdate` execute unpaused, the components
read back (1,0,0) and (0,0,2). -/
theorem velocitycontrol_model_cmd_written_every_tick
    (info : VelocityControl.UpdateInfo) (s : VelocityControl.State)
    (ecm : VelocityControl.Ecm) (f : String → VelocityControl.Entity)
    (hp : info.paused = false)
    (hf : ∀ n, f n ≠ s.model)
    (hl : ∀ p ∈ s.links, p.2 ≠ s.model) :
    mapFind (VelocityControl.preUpdate info s ecm f).ecm.linearVelCmd s.model
      = some s.linearVelocity
    ∧ mapFind (VelocityControl.preUpdate info s ecm f).ecm.angularVelCmd s.model
      = some s.angularVelocity
    ∧ mapFind (VelocityControl.preUpdate ⟨1, false⟩
        (VelocityControl.postUpdate ⟨1, false⟩
          (VelocityControl.onCmdVel VelocityControl.modelOnlyState
            VelocityControl.msgOneTwo)) {} (fun _ => 0)).ecm.linearVelCmd 1
      = some ⟨FP.num 1, FP.zero, FP.zero⟩
    ∧ mapFind (VelocityControl.preUpdate ⟨1, false⟩
        (VelocityControl.postUpdate ⟨1, false⟩
          (VelocityControl.onCmdVel VelocityControl.modelOnlyState
            VelocityControl.msgOneTwo)) {} (fun _ => 0)).ecm.angularVelCmd 1
      = some ⟨FP.zero, FP.zero, FP.num 2⟩ := by
  have hgen :
      mapFind (VelocityControl.preUpdate info s ecm f).ecm.linearVelCmd s.model
        = some s.linearVelocity
      ∧ mapFind (VelocityControl.preUpdate info s ecm f).ecm.angularVelCmd s.model
        = some s.angularVelocity := by
    by_cases hemp : s.linkNames.isEmpty = true
    · have he : (VelocityControl.preUpdate info s ecm f).ecm
          = ⟨mapSet ecm.angularVelCmd s.model s.angularVelocity,
             mapSet ecm.linearVelCmd s.model s.linearVelocity⟩ := by
        simp [VelocityControl.preUpdate, hp, hemp]
      rw [he]
      exact ⟨mapFind_mapSet_self _ _ _, mapFind_mapSet_self _ _ _⟩
    · have hemp2 : s.linkNames.isEmpty = false := by
        cases h : s.linkNames.isEmpty
        · rfl
        · exact absurd h hemp
      by_cases hr1 : (s.linkNames.foldl (VelocityControl.resolveStep f)
          (s.links, [])).1.isEmpty = true
      · have he : (VelocityControl.preUpdate info s ecm f).ecm
            = ⟨mapSet ecm.angularVelCmd s.model s.angularVelocity,
               mapSet ecm.linearVelCmd s.model s.linearVelocity⟩ := by
          simp [VelocityControl.preUpdate, hp, hemp2, hr1]
        rw [he]
        exact ⟨mapFind_mapSet_self _ _ _, mapFind_mapSet_self _ _ _⟩
      · have he : (VelocityControl.preUpdate info s ecm f).ecm
            = VelocityControl.writeLinkCmds
                { s with links := (s.linkNames.foldl
                    (VelocityControl.resolveStep f) (s.links, [])).1 }
                ⟨mapSet ecm.angularVelCmd s.model s.angularVelocity,
                 mapSet ecm.linearVelCmd s.model s.linearVelocity⟩
                (s.linkNames.foldl (VelocityControl.resolveStep f)
                  (s.links, [])).1 := by
          simp [VelocityControl.preUpdate, hp, hemp2, hr1]
        have hall : ∀ p ∈ (s.linkNames.foldl (VelocityControl.resolveStep f)
            (s.links, [])).1, p.2 ≠ s.model := by
          intro p hpmem
          rcases VelocityControl.resolveFold_links_from f s.linkNames
            (s.links, []) p hpmem with h1 | h1
          · exact hl p h1
          · rw [h1]
            exact hf p.1
        have hpres := VelocityControl.writeLinkCmds_preserve
          { s with links := (s.linkNames.foldl
              (VelocityControl.resolveStep f) (s.links, [])).1 }
          s.model
          (s.linkNames.foldl (VelocityControl.resolveStep f) (s.links, [])).1
          ⟨mapSet ecm.angularVelCmd s.model s.angularVelocity,
           mapSet ecm.linearVelCmd s.model s.linearVelocity⟩
          hall
        rw [he, hpres.2, hpres.1]
        exact ⟨mapFind_mapSet_self _ _ _, mapFind_mapSet_self _ _ _⟩
  refine ⟨hgen.1, hgen.2, by decide, by decide⟩

theorem velocitycontrol_model_cmd_written_every_tick_witness :
    (⟨1, false⟩ : VelocityControl.UpdateInfo).paused = false
    ∧ mapFind (VelocityControl.preUpdate ⟨1, false⟩
        VelocityControl.modelOnlyState {}
        (fun _ => 0)).ecm.linearVelCmd VelocityControl.modelOnlyState.model
      = some VelocityControl.modelOnlyState.linearVelocity
    ∧ mapFind (VelocityControl.preUpdate ⟨1, false⟩
        VelocityControl.modelOnlyState {}
        (fun _ => 0)).ecm.angularVelCmd VelocityControl.modelOnlyState.model
      = some VelocityControl.modelOnlyState.angularVelocity := by
  have h := velocitycontrol_model_cmd_written_every_tick ⟨1, false⟩
    VelocityControl.modelOnlyState {} (fun _ => 0) rfl
    (fun n => Nat.zero_ne_one) (fun p hp2 => (List.not_mem_nil p hp2).elim)
  exact ⟨rfl, h.1, h.2.1⟩
